import Mathlib

/-!
Verification of the backtesting engine of `backtester.py`.

The engine (`Backtester.run_backtest`, `_calculate_pnl`, `_calculate_metrics`)
is embedded shallowly: prices and capital are rationals, timestamps are
integers (seconds), bars are OHLCV records.  The indicator provider
(`indicators.get_trade_setup`) is an external collaborator of the engine:
it is a deterministic function of the bar history prefix and the current
price, so it is modelled as an arbitrary function parameter `SetupFn`;
every theorem about the engine quantifies over it.

Python-specific behaviour is kept: the trailing-stop block runs under
`if self.trailing_stop_pct:` (falsy for `None` and for `0`), and a computed
exit price is acted upon under `if exit_price:` (falsy for `0.0`), so both
are modelled through explicit truthiness tests.
-/

inductive PosType where
  | LONG
  | SHORT
deriving DecidableEq

/-- One OHLCV row of the input frame (`current_row` in the source); the
engine itself reads only `High`, `Low`, `Close` and the index timestamp,
the remaining columns are consumed by the setup provider. -/
structure Bar where
  time : ℤ
  op : ℚ
  high : ℚ
  low : ℚ
  close : ℚ
  volume : ℚ
deriving DecidableEq

def bar0 : Bar := ⟨0, 0, 0, 0, 0, 0⟩

/-- The dict returned by `indicators.get_trade_setup`. -/
structure Setup where
  signal : String
  type_ : PosType
  entry : ℚ
  sl : ℚ
  tp : ℚ
  dca1 : ℚ
  dca2 : ℚ
  dca3 : ℚ
deriving DecidableEq

/-- The setup provider: given `df.iloc[:i+1]`, `current_price` and the four
filter flags, it returns at most one candidate setup. -/
def SetupFn : Type := List Bar → ℚ → Bool → Bool → Bool → Bool → Option Setup

/-- The `open_position` dict.  `extreme` stands for the per-direction key
`highest_price` (LONG) / `lowest_price` (SHORT); exactly one of the two is
ever present on a Python position, so a single field represents it. -/
structure Position where
  type_ : PosType
  entry_time : ℤ
  entry_price : ℚ
  sl : ℚ
  tp : ℚ
  position_size : ℚ
  initial_size : ℚ
  signal : String
  dca_levels : List ℚ
  extreme : ℚ
deriving DecidableEq

/-- A `trade_record` dict appended to `self.trades`. -/
structure Trade where
  entry_time : ℤ
  exit_time : ℤ
  type_ : PosType
  entry_price : ℚ
  exit_price : ℚ
  exit_reason : String
  position_size : ℚ
  pnl : ℚ
  pnl_pct : ℚ
  capital_after : ℚ
deriving DecidableEq

/-- One `self.equity_curve` entry. -/
structure EquityPoint where
  time : ℤ
  equity : ℚ
deriving DecidableEq

/-- The constructor arguments of `Backtester.__init__`, after the
`position_size_pct / 100` normalisation it performs. -/
structure Config where
  initial_capital : ℚ
  use_dca : Bool
  position_size_pct : ℚ
  use_trend_filter : Bool
  use_volume_filter : Bool
  use_adx_filter : Bool
  use_macd_filter : Bool
  trailing_stop_pct : Option ℚ
deriving DecidableEq

/-- `Backtester.__init__`: it can in principle raise (modelled by
`Except String`), but its body performs no validation of any argument and
always succeeds, storing `position_size_pct / 100`. -/
def backtesterInit (initial_capital : ℚ) (use_dca : Bool) (position_size_pct : ℚ)
    (use_trend_filter : Bool) (use_volume_filter : Bool) (use_adx_filter : Bool)
    (use_macd_filter : Bool) (trailing_stop_pct : Option ℚ) : Except String Config :=
  Except.ok
    { initial_capital := initial_capital
      use_dca := use_dca
      position_size_pct := position_size_pct / 100
      use_trend_filter := use_trend_filter
      use_volume_filter := use_volume_filter
      use_adx_filter := use_adx_filter
      use_macd_filter := use_macd_filter
      trailing_stop_pct := trailing_stop_pct }

/-- The mutable per-run state of `run_backtest`. -/
structure RunState where
  trades : List Trade
  equity_curve : List EquityPoint
  current_capital : ℚ
  peak_capital : ℚ
  open_position : Option Position
deriving DecidableEq

/-- `_calculate_pnl`. -/
def calculatePnl (position : Position) (exit_price : ℚ) : ℚ :=
  let entry_price := position.entry_price
  let pnl_pct :=
    match position.type_ with
    | .LONG => (exit_price - entry_price) / entry_price
    | .SHORT => (entry_price - exit_price) / entry_price
  position.position_size * pnl_pct

/-- Truthiness of `self.trailing_stop_pct` (`None` and `0.0` are falsy). -/
def trailingActive (cfg : Config) : Bool :=
  match cfg.trailing_stop_pct with
  | none => false
  | some p => decide (p ≠ 0)

/-- The `--- Trailing Stop Logic ---` block. -/
def trailingUpdate (cfg : Config) (row : Bar) (pos : Position) : Position :=
  if trailingActive cfg then
    let p := cfg.trailing_stop_pct.getD 0
    match pos.type_ with
    | .LONG =>
        let hp := max pos.extreme row.high
        { pos with extreme := hp, sl := max pos.sl (hp * (1 - p / 100)) }
    | .SHORT =>
        let lp := min pos.extreme row.low
        { pos with extreme := lp, sl := min pos.sl (lp * (1 + p / 100)) }
  else pos

/-- The `1. Check for DCA Execution (if enabled)` block. -/
def dcaUpdate (cfg : Config) (row : Bar) (pos : Position) : Position :=
  if cfg.use_dca then
    match pos.dca_levels with
    | [] => pos
    | next_dca_price :: rest =>
        let dca_triggered : Bool :=
          match pos.type_ with
          | .LONG => decide (row.low ≤ next_dca_price)
          | .SHORT => decide (row.high ≥ next_dca_price)
        if dca_triggered then
          let added_size := pos.initial_size
          let total_value := pos.entry_price * pos.position_size + next_dca_price * added_size
          let new_total_size := pos.position_size + added_size
          { pos with
              entry_price := total_value / new_total_size
              position_size := new_total_size
              dca_levels := rest }
        else pos
  else pos

/-- The `2. Check for Stop Loss or Take Profit` block: the pair
`(exit_price, exit_reason)`, `none` when neither branch fires. -/
def checkExit (row : Bar) (pos : Position) : Option (ℚ × String) :=
  match pos.type_ with
  | .LONG =>
      if row.low ≤ pos.sl then some (pos.sl, "Stop Loss")
      else if row.high ≥ pos.tp then some (pos.tp, "Take Profit")
      else none
  | .SHORT =>
      if row.high ≥ pos.sl then some (pos.sl, "Stop Loss")
      else if row.low ≤ pos.tp then some (pos.tp, "Take Profit")
      else none

/-- The `Close position if exit triggered` block body. -/
def closeTrade (time : ℤ) (st : RunState) (pos : Position) (exit_price : ℚ)
    (exit_reason : String) : RunState :=
  let pnl := calculatePnl pos exit_price
  let cap := st.current_capital + pnl
  let tr : Trade :=
    { entry_time := pos.entry_time
      exit_time := time
      type_ := pos.type_
      entry_price := pos.entry_price
      exit_price := exit_price
      exit_reason := exit_reason
      position_size := pos.position_size
      pnl := pnl
      pnl_pct := pnl / pos.position_size * 100
      capital_after := cap }
  { st with
      trades := st.trades ++ [tr]
      current_capital := cap
      peak_capital := if cap > st.peak_capital then cap else st.peak_capital
      open_position := none }

/-- The whole `if open_position:` management block of one bar: trailing
stop, DCA, then the exit check; the close-out runs under Python's
`if exit_price:`, so an exit price of exactly `0` leaves the trade open. -/
def positionPhase (cfg : Config) (row : Bar) (st : RunState) : RunState :=
  match st.open_position with
  | none => st
  | some pos =>
      let pos1 := dcaUpdate cfg row (trailingUpdate cfg row pos)
      match checkExit row pos1 with
      | none => { st with open_position := some pos1 }
      | some (exit_price, exit_reason) =>
          if exit_price = 0 then { st with open_position := some pos1 }
          else closeTrade row.time st pos1 exit_price exit_reason

/-- The position dict built by the `Open new position` block. -/
def openedPosition (cfg : Config) (s : Setup) (time : ℤ) (row : Bar)
    (position_size : ℚ) : Position :=
  { type_ := s.type_
    entry_time := time
    entry_price := s.entry
    sl := s.sl
    tp := s.tp
    position_size := position_size
    initial_size := position_size
    signal := s.signal
    dca_levels := if cfg.use_dca then [s.dca1, s.dca2, s.dca3] else []
    extreme := match s.type_ with | .LONG => row.high | .SHORT => row.low }

/-- The `if not open_position:` entry block of one bar. -/
def entryPhase (cfg : Config) (fsetup : SetupFn) (df : List Bar) (i : ℕ)
    (st : RunState) : RunState :=
  match st.open_position with
  | some _ => st
  | none =>
      let row := df.getD i bar0
      match fsetup (df.take (i + 1)) row.close cfg.use_trend_filter
          cfg.use_volume_filter cfg.use_adx_filter cfg.use_macd_filter with
      | none => st
      | some setup =>
          let position_size := st.current_capital * cfg.position_size_pct
          { st with open_position := some (openedPosition cfg setup row.time row position_size) }

/-- The `Record equity at each step` block. -/
def recordEquity (row : Bar) (st : RunState) : RunState :=
  let equity := st.current_capital +
    (match st.open_position with
     | some pos => calculatePnl pos row.close
     | none => 0)
  { st with equity_curve := st.equity_curve ++ [⟨row.time, equity⟩] }

/-- One iteration of the `for i in range(21, len(df))` loop. -/
def stepBar (cfg : Config) (fsetup : SetupFn) (df : List Bar) (st : RunState)
    (i : ℕ) : RunState :=
  let row := df.getD i bar0
  recordEquity row (entryPhase cfg fsetup df i (positionPhase cfg row st))

/-- The state right after the `Reset state` block. -/
def initState (cfg : Config) : RunState :=
  { trades := []
    equity_curve := []
    current_capital := cfg.initial_capital
    peak_capital := cfg.initial_capital
    open_position := none }

/-- The `Close any remaining open position at the end` block. -/
def finalClose (df : List Bar) (st : RunState) : RunState :=
  match st.open_position with
  | none => st
  | some pos =>
      let row := df.getD (df.length - 1) bar0
      let pnl := calculatePnl pos row.close
      let cap := st.current_capital + pnl
      let tr : Trade :=
        { entry_time := pos.entry_time
          exit_time := row.time
          type_ := pos.type_
          entry_price := pos.entry_price
          exit_price := row.close
          exit_reason := "End of Data"
          position_size := pos.position_size
          pnl := pnl
          pnl_pct := pnl / pos.position_size * 100
          capital_after := cap }
      { st with
          trades := st.trades ++ [tr]
          current_capital := cap
          open_position := none }

/-- The all-zero metrics dict of the `if not self.trades:` early return
(the Python dict there omits the `winning_trades`, `losing_trades` and
`final_capital` keys; they are carried as `0` here). -/
structure Metrics where
  total_trades : ℕ
  winning_trades : ℕ
  losing_trades : ℕ
  win_rate : ℚ
  profit_factor : ℚ
  total_return : ℚ
  total_return_pct : ℚ
  max_drawdown : ℚ
  max_drawdown_pct : ℚ
  avg_win : ℚ
  avg_loss : ℚ
  largest_win : ℚ
  largest_loss : ℚ
  avg_trade_duration_hours : ℚ
  final_capital : ℚ
deriving DecidableEq

/-- One iteration of the `for point in self.equity_curve:` drawdown loop of
`_calculate_metrics`: the accumulator is `(max_drawdown, max_drawdown_pct, peak)`. -/
def ddStep : ℚ × ℚ × ℚ → EquityPoint → ℚ × ℚ × ℚ
  | (max_drawdown, max_drawdown_pct, peak), point =>
      let equity := point.equity
      let peak1 := if equity > peak then equity else peak
      let drawdown := peak1 - equity
      let drawdown_pct := if peak1 > 0 then drawdown / peak1 * 100 else 0
      if drawdown > max_drawdown then (drawdown, drawdown_pct, peak1)
      else (max_drawdown, max_drawdown_pct, peak1)

/-- The per-point `(drawdown, drawdown_pct)` values the drawdown loop
computes, in order, starting from running peak `peak`. -/
def ddTrace (peak : ℚ) : List EquityPoint → List (ℚ × ℚ)
  | [] => []
  | point :: rest =>
      let peak1 := if point.equity > peak then point.equity else peak
      let drawdown := peak1 - point.equity
      let drawdown_pct := if peak1 > 0 then drawdown / peak1 * 100 else 0
      (drawdown, drawdown_pct) :: ddTrace peak1 rest

/-- `_calculate_metrics` (`initial_capital` and `current_capital` are the
`self` fields it reads). -/
def calculateMetrics (initial_capital current_capital : ℚ) (trades : List Trade)
    (equity_curve : List EquityPoint) : Metrics :=
  match trades with
  | [] => ⟨0, 0, 0, 0, 0, 0, 0, 0, 0, 0, 0, 0, 0, 0, 0⟩
  | _ :: _ =>
      let total_trades := trades.length
      let winning_trades := trades.filter (fun t => t.pnl > 0)
      let losing_trades := trades.filter (fun t => t.pnl ≤ 0)
      let num_wins := winning_trades.length
      let num_losses := losing_trades.length
      let win_rate := if total_trades > 0 then (num_wins : ℚ) / total_trades * 100 else 0
      let gross_profit := (winning_trades.map Trade.pnl).sum
      let gross_loss := |(losing_trades.map Trade.pnl).sum|
      let profit_factor :=
        if gross_loss > 0 then gross_profit / gross_loss
        else if gross_profit > 0 then gross_profit else 0
      let total_return := current_capital - initial_capital
      let total_return_pct := total_return / initial_capital * 100
      let dd := equity_curve.foldl ddStep (0, 0, initial_capital)
      let avg_win := if num_wins > 0 then gross_profit / num_wins else 0
      let avg_loss := if num_losses > 0 then gross_loss / num_losses else 0
      let largest_win :=
        match winning_trades.map Trade.pnl with
        | [] => 0
        | p :: ps => ps.foldl max p
      let largest_loss :=
        match losing_trades.map Trade.pnl with
        | [] => 0
        | p :: ps => ps.foldl min p
      let durations := trades.map (fun t => ((t.exit_time - t.entry_time : ℤ) : ℚ) / 3600)
      let avg_trade_duration :=
        if durations.length = 0 then 0 else durations.sum / durations.length
      { total_trades := total_trades
        winning_trades := num_wins
        losing_trades := num_losses
        win_rate := win_rate
        profit_factor := profit_factor
        total_return := total_return
        total_return_pct := total_return_pct
        max_drawdown := dd.1
        max_drawdown_pct := dd.2.1
        avg_win := avg_win
        avg_loss := avg_loss
        largest_win := largest_win
        largest_loss := largest_loss
        avg_trade_duration_hours := avg_trade_duration
        final_capital := current_capital }

/-- The dict returned by `run_backtest`. -/
structure RunResult where
  metrics : Metrics
  trades : List Trade
  equity_curve : List EquityPoint
deriving DecidableEq

/-- `run_backtest` on a present data frame (`df is not None`). -/
def runBacktest (cfg : Config) (fsetup : SetupFn) (df : List Bar) : Option RunResult :=
  if df.length < 22 then none
  else
    let st := (List.range' 21 (df.length - 21)).foldl (stepBar cfg fsetup df) (initState cfg)
    let st := finalClose df st
    some
      { metrics := calculateMetrics cfg.initial_capital st.current_capital st.trades st.equity_curve
        trades := st.trades
        equity_curve := st.equity_curve }

/-- `run_backtest` including the `df is None` half of its guard. -/
def runBacktestOpt (cfg : Config) (fsetup : SetupFn) : Option (List Bar) → Option RunResult
  | none => none
  | some df => runBacktest cfg fsetup df

/-! ### Small facts about the per-bar blocks -/

theorem dcaUpdate_sl (cfg : Config) (row : Bar) (pos : Position) :
    (dcaUpdate cfg row pos).sl = pos.sl := by
  simp only [dcaUpdate]
  repeat' split
  all_goals rfl

theorem dcaUpdate_tp (cfg : Config) (row : Bar) (pos : Position) :
    (dcaUpdate cfg row pos).tp = pos.tp := by
  simp only [dcaUpdate]
  repeat' split
  all_goals rfl

theorem dcaUpdate_type (cfg : Config) (row : Bar) (pos : Position) :
    (dcaUpdate cfg row pos).type_ = pos.type_ := by
  simp only [dcaUpdate]
  repeat' split
  all_goals rfl

theorem dcaUpdate_entry_time (cfg : Config) (row : Bar) (pos : Position) :
    (dcaUpdate cfg row pos).entry_time = pos.entry_time := by
  simp only [dcaUpdate]
  repeat' split
  all_goals rfl

theorem dcaUpdate_initial_size (cfg : Config) (row : Bar) (pos : Position) :
    (dcaUpdate cfg row pos).initial_size = pos.initial_size := by
  simp only [dcaUpdate]
  repeat' split
  all_goals rfl

theorem dcaUpdate_extreme (cfg : Config) (row : Bar) (pos : Position) :
    (dcaUpdate cfg row pos).extreme = pos.extreme := by
  simp only [dcaUpdate]
  repeat' split
  all_goals rfl

theorem trailingUpdate_dca_levels (cfg : Config) (row : Bar) (pos : Position) :
    (trailingUpdate cfg row pos).dca_levels = pos.dca_levels := by
  simp only [trailingUpdate]
  repeat' split
  all_goals rfl

theorem trailingUpdate_type (cfg : Config) (row : Bar) (pos : Position) :
    (trailingUpdate cfg row pos).type_ = pos.type_ := by
  simp only [trailingUpdate]
  repeat' split
  all_goals rfl

theorem trailingUpdate_entry_time (cfg : Config) (row : Bar) (pos : Position) :
    (trailingUpdate cfg row pos).entry_time = pos.entry_time := by
  simp only [trailingUpdate]
  repeat' split
  all_goals rfl

theorem trailingUpdate_entry_price (cfg : Config) (row : Bar) (pos : Position) :
    (trailingUpdate cfg row pos).entry_price = pos.entry_price := by
  simp only [trailingUpdate]
  repeat' split
  all_goals rfl

theorem trailingUpdate_position_size (cfg : Config) (row : Bar) (pos : Position) :
    (trailingUpdate cfg row pos).position_size = pos.position_size := by
  simp only [trailingUpdate]
  repeat' split
  all_goals rfl

theorem trailingUpdate_initial_size (cfg : Config) (row : Bar) (pos : Position) :
    (trailingUpdate cfg row pos).initial_size = pos.initial_size := by
  simp only [trailingUpdate]
  repeat' split
  all_goals rfl

theorem trailingUpdate_tp (cfg : Config) (row : Bar) (pos : Position) :
    (trailingUpdate cfg row pos).tp = pos.tp := by
  simp only [trailingUpdate]
  repeat' split
  all_goals rfl

theorem entryPhase_trades (cfg : Config) (fsetup : SetupFn) (df : List Bar) (i : ℕ)
    (st : RunState) : (entryPhase cfg fsetup df i st).trades = st.trades := by
  simp only [entryPhase]
  repeat' split
  all_goals rfl

theorem entryPhase_equity (cfg : Config) (fsetup : SetupFn) (df : List Bar) (i : ℕ)
    (st : RunState) : (entryPhase cfg fsetup df i st).equity_curve = st.equity_curve := by
  simp only [entryPhase]
  repeat' split
  all_goals rfl

theorem entryPhase_capital (cfg : Config) (fsetup : SetupFn) (df : List Bar) (i : ℕ)
    (st : RunState) : (entryPhase cfg fsetup df i st).current_capital = st.current_capital := by
  simp only [entryPhase]
  repeat' split
  all_goals rfl

theorem entryPhase_of_some (cfg : Config) (fsetup : SetupFn) (df : List Bar) (i : ℕ)
    (st : RunState) (pos : Position) (h : st.open_position = some pos) :
    entryPhase cfg fsetup df i st = st := by
  unfold entryPhase
  rw [h]

theorem recordEquity_trades (row : Bar) (st : RunState) :
    (recordEquity row st).trades = st.trades := rfl

theorem recordEquity_open (row : Bar) (st : RunState) :
    (recordEquity row st).open_position = st.open_position := rfl

theorem recordEquity_capital (row : Bar) (st : RunState) :
    (recordEquity row st).current_capital = st.current_capital := rfl

theorem positionPhase_equity (cfg : Config) (row : Bar) (st : RunState) :
    (positionPhase cfg row st).equity_curve = st.equity_curve := by
  simp only [positionPhase, closeTrade]
  repeat' split
  all_goals rfl

theorem stepBar_equity (cfg : Config) (fsetup : SetupFn) (df : List Bar) (st : RunState)
    (i : ℕ) :
    (stepBar cfg fsetup df st i).equity_curve =
      st.equity_curve ++
        [⟨(df.getD i bar0).time,
          (entryPhase cfg fsetup df i (positionPhase cfg (df.getD i bar0) st)).current_capital +
            (match (entryPhase cfg fsetup df i (positionPhase cfg (df.getD i bar0) st)).open_position with
             | some pos => calculatePnl pos (df.getD i bar0).close
             | none => 0)⟩] := by
  simp only [stepBar, recordEquity, entryPhase_equity, positionPhase_equity]

theorem finalClose_equity (df : List Bar) (st : RunState) :
    (finalClose df st).equity_curve = st.equity_curve := by
  simp only [finalClose]
  repeat' split
  all_goals rfl

/-- The PnL formula of the specification, identical for realized and
unrealized PnL. -/
def pnlFormula (t : PosType) (size entry exit_price : ℚ) : ℚ :=
  match t with
  | .LONG => size * ((exit_price - entry) / entry)
  | .SHORT => size * ((entry - exit_price) / entry)

theorem calculatePnl_formula (pos : Position) (exit_price : ℚ) :
    calculatePnl pos exit_price =
      pnlFormula pos.type_ pos.position_size pos.entry_price exit_price := by
  unfold calculatePnl pnlFormula
  cases pos.type_ <;> rfl

/-! ### Claim C6 — the insufficient-data guard -/

/-- Claim C6: for every input with fewer than 22 bars (or a missing input)
and every configuration, `run_backtest` returns the empty result; the guard
depends only on the bar count, and an input of 22 or more bars is
processed (a result is produced). -/
theorem C6_insufficient_data_guard (cfg : Config) (fsetup : SetupFn) (df : List Bar) :
    runBacktestOpt cfg fsetup none = none ∧
    (df.length < 22 → runBacktest cfg fsetup df = none) ∧
    (22 ≤ df.length → (runBacktest cfg fsetup df).isSome = true) := by
  refine ⟨rfl, fun h => ?_, fun h => ?_⟩
  · simp [runBacktest, h]
  · simp [runBacktest, Nat.not_lt.mpr h]

def cfgW : Config :=
  { initial_capital := 10000
    use_dca := false
    position_size_pct := 1
    use_trend_filter := false
    use_volume_filter := false
    use_adx_filter := false
    use_macd_filter := false
    trailing_stop_pct := none }

/-- A bar list of constant bars (`n` copies of price-one bars at time 0). -/
def flatBars (n : ℕ) : List Bar := List.replicate n ⟨0, 1, 1, 1, 1, 1⟩

/-- A setup provider that never proposes a trade. -/
def noSetup : SetupFn := fun _ _ _ _ _ _ => none

theorem C6_witness :
    runBacktest cfgW noSetup (flatBars 21) = none ∧
    (runBacktest cfgW noSetup (flatBars 22)).isSome = true :=
  ⟨(C6_insufficient_data_guard cfgW noSetup (flatBars 21)).2.1 (by norm_num [flatBars]),
   (C6_insufficient_data_guard cfgW noSetup (flatBars 22)).2.2 (by norm_num [flatBars])⟩

/-! ### Claim C9 — no configuration validation at construction -/

/-- Claim C9 (code bug): the claim says an invalid configuration such as a
nonpositive position size fraction is rejected at construction time; the
constructor `Backtester.__init__` performs no validation at all, so the
invalid value `position_size_pct = 0` is accepted silently (the run later
divides by the zero position size when a trade closes). -/
theorem C9_init_accepts_invalid :
    backtesterInit 10000 false 0 false false false false none =
      Except.ok
        { initial_capital := 10000
          use_dca := false
          position_size_pct := 0
          use_trend_filter := false
          use_volume_filter := false
          use_adx_filter := false
          use_macd_filter := false
          trailing_stop_pct := none } := by
  norm_num [backtesterInit]

/-! ### Claim C10 — a zero trailing-stop percentage disables trailing -/

theorem foldl_stepBar_congr (f g : RunState → ℕ → RunState)
    (h : ∀ st i, f st i = g st i) :
    ∀ (L : List ℕ) (st : RunState), L.foldl f st = L.foldl g st := by
  intro L
  induction L with
  | nil => intro st; rfl
  | cons a t ih => intro st; simp only [List.foldl_cons, h, ih]

/-- Claim C10: a run configured with `trailing_stop_pct = 0` produces
exactly the same result (trades, equity curve and metrics) as a run with
the option absent: the trailing-stop block is guarded by Python truthiness
of the value, and `0.0` is falsy. -/
theorem C10_zero_trailing_is_disabled (c : Config) (fsetup : SetupFn) (df : List Bar) :
    runBacktest { c with trailing_stop_pct := some 0 } fsetup df =
      runBacktest { c with trailing_stop_pct := none } fsetup df := by
  have hstep : ∀ (st : RunState) (i : ℕ),
      stepBar { c with trailing_stop_pct := some 0 } fsetup df st i =
        stepBar { c with trailing_stop_pct := none } fsetup df st i := by
    intro st i
    rfl
  unfold runBacktest
  rw [foldl_stepBar_congr _ _ hstep]
  rfl

/-! ### Claim C3 — trailing-stop update and stop monotonicity -/

theorem dcaUpdate_levels_tail (cfg : Config) (row : Bar) (pos : Position) :
    (dcaUpdate cfg row pos).dca_levels = pos.dca_levels ∨
      (dcaUpdate cfg row pos).dca_levels = pos.dca_levels.tail := by
  simp only [dcaUpdate]
  repeat' split
  all_goals first
    | exact Or.inl rfl
    | (right; simp_all)

/-- Claim C3: with `trailing_stop_pct` configured (to a truthy value `p`),
on every bar with an open position the engine replaces the extreme by the
running max of highs (LONG) resp. min of lows (SHORT), computes the
candidate stop `extreme * (1 ∓ p/100)` and adopts it only if more
favorable (`max`/`min` with the current stop); consequently the stop of a
LONG position never decreases across the per-bar update pipeline and the
stop of a SHORT position never increases. -/
theorem C3_trailing_stop (cfg : Config) (row : Bar) (pos : Position) (p : ℚ)
    (hp : cfg.trailing_stop_pct = some p) (hne : p ≠ 0) :
    (pos.type_ = PosType.LONG →
      (trailingUpdate cfg row pos).extreme = max pos.extreme row.high ∧
      (trailingUpdate cfg row pos).sl =
        max pos.sl (max pos.extreme row.high * (1 - p / 100)) ∧
      pos.sl ≤ (trailingUpdate cfg row pos).sl) ∧
    (pos.type_ = PosType.SHORT →
      (trailingUpdate cfg row pos).extreme = min pos.extreme row.low ∧
      (trailingUpdate cfg row pos).sl =
        min pos.sl (min pos.extreme row.low * (1 + p / 100)) ∧
      (trailingUpdate cfg row pos).sl ≤ pos.sl) ∧
    (∀ (cfg2 : Config) (row2 : Bar) (pos2 : Position),
      (pos2.type_ = PosType.LONG →
        pos2.sl ≤ (dcaUpdate cfg2 row2 (trailingUpdate cfg2 row2 pos2)).sl) ∧
      (pos2.type_ = PosType.SHORT →
        (dcaUpdate cfg2 row2 (trailingUpdate cfg2 row2 pos2)).sl ≤ pos2.sl)) := by
  have hAct : trailingActive cfg = true := by
    simp [trailingActive, hp, hne]
  refine ⟨fun ht => ⟨?_, ?_, ?_⟩, fun ht => ⟨?_, ?_, ?_⟩,
    fun cfg2 row2 pos2 => ⟨fun ht => ?_, fun ht => ?_⟩⟩
  · simp only [trailingUpdate, hAct, if_true, ht, hp, Option.getD_some]
  · simp only [trailingUpdate, hAct, if_true, ht, hp, Option.getD_some]
  · simp only [trailingUpdate, hAct, if_true, ht, hp, Option.getD_some]
    exact le_max_left _ _
  · simp only [trailingUpdate, hAct, if_true, ht, hp, Option.getD_some]
  · simp only [trailingUpdate, hAct, if_true, ht, hp, Option.getD_some]
  · simp only [trailingUpdate, hAct, if_true, ht, hp, Option.getD_some]
    exact min_le_left _ _
  · rw [dcaUpdate_sl]
    unfold trailingUpdate
    by_cases h : trailingActive cfg2 = true
    · simp only [h, if_true, ht]
      exact le_max_left _ _
    · rw [if_neg h]
  · rw [dcaUpdate_sl]
    unfold trailingUpdate
    by_cases h : trailingActive cfg2 = true
    · simp only [h, if_true, ht]
      exact min_le_left _ _
    · rw [if_neg h]

def cfgV : Config :=
  { cfgW with trailing_stop_pct := some 1 }

def posV : Position :=
  { type_ := PosType.LONG
    entry_time := 0
    entry_price := 100
    sl := 95
    tp := 300
    position_size := 1000
    initial_size := 1000
    signal := "s"
    dca_levels := []
    extreme := 100 }

def rowV : Bar := ⟨1, 150, 200, 150, 180, 1⟩

theorem C3_witness :
    (trailingUpdate cfgV rowV posV).extreme = 200 ∧
    (trailingUpdate cfgV rowV posV).sl = 198 ∧
    posV.sl ≤ (trailingUpdate cfgV rowV posV).sl := by
  have h := (C3_trailing_stop cfgV rowV posV 1 rfl (by norm_num)).1 rfl
  refine ⟨?_, ?_, h.2.2⟩
  · rw [h.1]; norm_num [posV, rowV, max_def]
  · rw [h.2.1]; norm_num [posV, rowV, max_def]

/-! ### Claim C2 — DCA execution -/

/-- Claim C2: on a bar where a position is open, DCA is enabled and the
level queue is non-empty, if the bar's low is at or below the front level
(LONG) resp. the bar's high is at or above it (SHORT), the engine adds a
quantity equal to the initial position size at the front level's price,
replaces the entry by the size-weighted average, and pops exactly the
front level; per bar the queue loses at most its front element (so it is
consumed front-to-back and never grows while the position lives). -/
theorem C2_dca_execution (cfg : Config) (row : Bar) (pos : Position)
    (next_dca_price : ℚ) (rest : List ℚ) (hdca : cfg.use_dca = true)
    (hq : pos.dca_levels = next_dca_price :: rest)
    (htrig : match pos.type_ with
             | PosType.LONG => row.low ≤ next_dca_price
             | PosType.SHORT => row.high ≥ next_dca_price) :
    ((dcaUpdate cfg row pos).position_size = pos.position_size + pos.initial_size ∧
     (dcaUpdate cfg row pos).entry_price =
       (pos.entry_price * pos.position_size + next_dca_price * pos.initial_size) /
         (pos.position_size + pos.initial_size) ∧
     (dcaUpdate cfg row pos).dca_levels = rest ∧
     (dcaUpdate cfg row pos).sl = pos.sl ∧
     (dcaUpdate cfg row pos).tp = pos.tp ∧
     (dcaUpdate cfg row pos).type_ = pos.type_ ∧
     (dcaUpdate cfg row pos).initial_size = pos.initial_size ∧
     (dcaUpdate cfg row pos).entry_time = pos.entry_time) ∧
    (∀ (cfg2 : Config) (row2 : Bar) (pos2 : Position),
      (dcaUpdate cfg2 row2 (trailingUpdate cfg2 row2 pos2)).dca_levels = pos2.dca_levels ∨
      (dcaUpdate cfg2 row2 (trailingUpdate cfg2 row2 pos2)).dca_levels =
        pos2.dca_levels.tail) := by
  have htrig' : (match pos.type_ with
      | PosType.LONG => decide (row.low ≤ next_dca_price)
      | PosType.SHORT => decide (row.high ≥ next_dca_price)) = true := by
    cases ht : pos.type_ <;> rw [ht] at htrig <;> dsimp only at htrig <;> simp [htrig]
  constructor
  · simp only [dcaUpdate, hdca, if_true, hq, htrig']
    exact ⟨trivial, trivial, trivial, trivial, trivial, trivial, trivial, trivial⟩
  · intro cfg2 row2 pos2
    have h := dcaUpdate_levels_tail cfg2 row2 (trailingUpdate cfg2 row2 pos2)
    rw [trailingUpdate_dca_levels] at h
    exact h

def cfgD : Config :=
  { cfgW with use_dca := true }

def posD : Position :=
  { type_ := PosType.LONG
    entry_time := 0
    entry_price := 100
    sl := 85
    tp := 120
    position_size := 1000
    initial_size := 1000
    signal := "s"
    dca_levels := [98, 95, 90]
    extreme := 100 }

def rowD : Bar := ⟨1, 99, 99, 97, 98, 1⟩

theorem C2_witness :
    (dcaUpdate cfgD rowD posD).position_size = 2000 ∧
    (dcaUpdate cfgD rowD posD).entry_price = 99 ∧
    (dcaUpdate cfgD rowD posD).dca_levels = [95, 90] := by
  have h := (C2_dca_execution cfgD rowD posD 98 [95, 90] rfl rfl (by norm_num [posD, rowD])).1
  refine ⟨?_, ?_, h.2.2.1⟩
  · rw [h.1]; norm_num [posD]
  · rw [h.2.1]; norm_num [posD]

/-! ### Claim C1 — the stop-loss / take-profit exit rule -/

theorem stepBar_trades (cfg : Config) (fsetup : SetupFn) (df : List Bar) (st : RunState)
    (i : ℕ) :
    (stepBar cfg fsetup df st i).trades = (positionPhase cfg (df.getD i bar0) st).trades := by
  simp only [stepBar, recordEquity_trades, entryPhase_trades]

theorem stepBar_open (cfg : Config) (fsetup : SetupFn) (df : List Bar) (st : RunState)
    (i : ℕ) (pos : Position)
    (h : (positionPhase cfg (df.getD i bar0) st).open_position = some pos) :
    (stepBar cfg fsetup df st i).open_position = some pos := by
  simp only [stepBar, recordEquity_open,
    entryPhase_of_some cfg fsetup df i (positionPhase cfg (df.getD i bar0) st) pos h, h]

theorem positionPhase_length (cfg : Config) (row : Bar) (st : RunState) :
    (positionPhase cfg row st).trades.length ≤ st.trades.length + 1 := by
  simp only [positionPhase, closeTrade]
  repeat' split
  all_goals simp

def cfgZ1 : Config := cfgW

def posZ1 : Position :=
  { type_ := PosType.LONG
    entry_time := 0
    entry_price := 5
    sl := 0
    tp := 10
    position_size := 100
    initial_size := 100
    signal := "s"
    dca_levels := []
    extreme := 5 }

def stZ1 : RunState :=
  { trades := []
    equity_curve := []
    current_capital := 10000
    peak_capital := 10000
    open_position := some posZ1 }

def dfZ1 : List Bar := List.replicate 22 ⟨0, 2, 3, 0, 2, 1⟩

theorem dfZ1_g21 : dfZ1.getD 21 bar0 = ⟨0, 2, 3, 0, 2, 1⟩ := rfl

theorem dfZ1_e21 : dfZ1[21]? = some ⟨0, 2, 3, 0, 2, 1⟩ := rfl

/-- Claim C1 is false as stated: on a bar whose low (0) touches the stop
price (0) of an open LONG position, the claim says the trade closes at the
stop with reason StopLoss, but the engine's close-out is guarded by
Python truthiness of the computed exit price (`if exit_price:`), so an
exit price of exactly 0 closes nothing: no trade is recorded and the
position stays open. -/
theorem C1_counterexample :
    (dfZ1.getD 21 bar0).low ≤ posZ1.sl ∧
    posZ1.type_ = PosType.LONG ∧
    stZ1.open_position = some posZ1 ∧
    (stepBar cfgZ1 noSetup dfZ1 stZ1 21).trades = [] ∧
    (stepBar cfgZ1 noSetup dfZ1 stZ1 21).open_position = some posZ1 := by
  refine ⟨by norm_num [dfZ1_g21, dfZ1_e21, posZ1], rfl, rfl, ?_, ?_⟩ <;>
    norm_num [stepBar, positionPhase, entryPhase, recordEquity, checkExit, trailingUpdate,
      trailingActive, dcaUpdate, cfgZ1, cfgW, stZ1, posZ1, noSetup, dfZ1_g21, dfZ1_e21]

/-- Claim C1 (amended): for every bar at which a position is open, with
`pos1` the position after the bar's trailing/DCA updates: a LONG position
closes at the stop with reason StopLoss if the bar's low is at or below
the stop — even when the take-profit condition holds as well, since the
stop-loss branch is evaluated first — else at the take-profit with reason
TakeProfit if the bar's high is at or above it, else no exit fires and the
position stays open; a SHORT position dually (stop when high is at or
above the stop, else take-profit when low is at or below it); and at most
one trade is recorded per bar.  Amendment forced by the counterexample:
the close-out fires only when the computed exit price is nonzero (the
engine tests the exit price for Python truthiness). -/
theorem C1_exit_rule (cfg : Config) (fsetup : SetupFn) (df : List Bar) (st : RunState)
    (i : ℕ) (pos pos1 : Position) (hopen : st.open_position = some pos)
    (hpos1 : pos1 = dcaUpdate cfg (df.getD i bar0) (trailingUpdate cfg (df.getD i bar0) pos)) :
    (pos1.type_ = PosType.LONG →
      ((df.getD i bar0).low ≤ pos1.sl → pos1.sl ≠ 0 →
        (stepBar cfg fsetup df st i).trades =
          (closeTrade (df.getD i bar0).time st pos1 pos1.sl "Stop Loss").trades) ∧
      (¬ (df.getD i bar0).low ≤ pos1.sl → (df.getD i bar0).high ≥ pos1.tp → pos1.tp ≠ 0 →
        (stepBar cfg fsetup df st i).trades =
          (closeTrade (df.getD i bar0).time st pos1 pos1.tp "Take Profit").trades) ∧
      (¬ (df.getD i bar0).low ≤ pos1.sl → ¬ (df.getD i bar0).high ≥ pos1.tp →
        (stepBar cfg fsetup df st i).trades = st.trades ∧
        (stepBar cfg fsetup df st i).open_position = some pos1)) ∧
    (pos1.type_ = PosType.SHORT →
      ((df.getD i bar0).high ≥ pos1.sl → pos1.sl ≠ 0 →
        (stepBar cfg fsetup df st i).trades =
          (closeTrade (df.getD i bar0).time st pos1 pos1.sl "Stop Loss").trades) ∧
      (¬ (df.getD i bar0).high ≥ pos1.sl → (df.getD i bar0).low ≤ pos1.tp → pos1.tp ≠ 0 →
        (stepBar cfg fsetup df st i).trades =
          (closeTrade (df.getD i bar0).time st pos1 pos1.tp "Take Profit").trades) ∧
      (¬ (df.getD i bar0).high ≥ pos1.sl → ¬ (df.getD i bar0).low ≤ pos1.tp →
        (stepBar cfg fsetup df st i).trades = st.trades ∧
        (stepBar cfg fsetup df st i).open_position = some pos1)) ∧
    (stepBar cfg fsetup df st i).trades.length ≤ st.trades.length + 1 := by
  have hpp : positionPhase cfg (df.getD i bar0) st =
      (match checkExit (df.getD i bar0) pos1 with
       | none => { st with open_position := some pos1 }
       | some (exit_price, exit_reason) =>
           if exit_price = 0 then { st with open_position := some pos1 }
           else closeTrade (df.getD i bar0).time st pos1 exit_price exit_reason) := by
    simp only [positionPhase, hopen, ← hpos1]
  refine ⟨fun ht => ⟨fun hsl hne => ?_, fun hnsl htp hne => ?_, fun hnsl hntp => ?_⟩,
    fun ht => ⟨fun hsl hne => ?_, fun hnsl htp hne => ?_, fun hnsl hntp => ?_⟩, ?_⟩
  · have hce : checkExit (df.getD i bar0) pos1 = some (pos1.sl, "Stop Loss") := by
      simp only [checkExit, ht]
      rw [if_pos hsl]
    rw [stepBar_trades, hpp, hce]
    simp [hne]
  · have hce : checkExit (df.getD i bar0) pos1 = some (pos1.tp, "Take Profit") := by
      simp only [checkExit, ht]
      rw [if_neg hnsl, if_pos htp]
    rw [stepBar_trades, hpp, hce]
    simp [hne]
  · have hce : checkExit (df.getD i bar0) pos1 = none := by
      simp only [checkExit, ht]
      rw [if_neg hnsl, if_neg hntp]
    constructor
    · rw [stepBar_trades, hpp, hce]
    · exact stepBar_open cfg fsetup df st i pos1 (by rw [hpp, hce])
  · have hce : checkExit (df.getD i bar0) pos1 = some (pos1.sl, "Stop Loss") := by
      simp only [checkExit, ht]
      rw [if_pos hsl]
    rw [stepBar_trades, hpp, hce]
    simp [hne]
  · have hce : checkExit (df.getD i bar0) pos1 = some (pos1.tp, "Take Profit") := by
      simp only [checkExit, ht]
      rw [if_neg hnsl, if_pos htp]
    rw [stepBar_trades, hpp, hce]
    simp [hne]
  · have hce : checkExit (df.getD i bar0) pos1 = none := by
      simp only [checkExit, ht]
      rw [if_neg hnsl, if_neg hntp]
    constructor
    · rw [stepBar_trades, hpp, hce]
    · exact stepBar_open cfg fsetup df st i pos1 (by rw [hpp, hce])
  · rw [stepBar_trades]
    exact positionPhase_length cfg (df.getD i bar0) st

def posY : Position :=
  { type_ := PosType.LONG
    entry_time := 0
    entry_price := 100
    sl := 95
    tp := 110
    position_size := 1000
    initial_size := 1000
    signal := "s"
    dca_levels := []
    extreme := 100 }

def stY : RunState :=
  { trades := []
    equity_curve := []
    current_capital := 10000
    peak_capital := 10000
    open_position := some posY }

def dfY : List Bar := List.replicate 22 ⟨5, 96, 112, 94, 96, 1⟩

theorem C1_witness :
    (stepBar cfgW noSetup dfY stY 21).trades =
      (closeTrade (dfY.getD 21 bar0).time stY posY posY.sl "Stop Loss").trades := by
  have h := (C1_exit_rule cfgW noSetup dfY stY 21 posY posY rfl (by rfl)).1 rfl
  exact h.1 (by norm_num [dfY, posY, List.getD]) (by norm_num [posY])

/-! ### Claim C7 — drawdown scan of `_calculate_metrics` -/

theorem le_foldl_max_fst (xs : List (ℚ × ℚ)) :
    ∀ (a : ℚ) (q : ℚ × ℚ), q.1 = a ∨ q ∈ xs →
      q.1 ≤ xs.foldl (fun b r => max b r.1) a := by
  induction xs with
  | nil =>
      intro a q h
      rcases h with h | h
      · exact le_of_eq h
      · cases h
  | cons y ys ih =>
      intro a q h
      rcases h with h | h
      · calc q.1 = a := h
          _ ≤ max a y.1 := le_max_left _ _
          _ ≤ _ := ih (max a y.1) (max a y.1, 0) (Or.inl rfl)
      · rcases List.mem_cons.mp h with h | h
        · calc q.1 = y.1 := by rw [h]
            _ ≤ max a y.1 := le_max_right _ _
            _ ≤ _ := ih (max a y.1) (max a y.1, 0) (Or.inl rfl)
        · exact ih (max a y.1) q (Or.inr h)

theorem ddScan_max (equity_curve : List EquityPoint) :
    ∀ (mdd mpct peak : ℚ),
      (equity_curve.foldl ddStep (mdd, mpct, peak)).1 =
        (ddTrace peak equity_curve).foldl (fun a q => max a q.1) mdd := by
  induction equity_curve with
  | nil => intro mdd mpct peak; rfl
  | cons point rest ih =>
      intro mdd mpct peak
      simp only [List.foldl_cons, ddStep, ddTrace]
      by_cases h : (if point.equity > peak then point.equity else peak) - point.equity > mdd
      · rw [if_pos h, ih]
        congr 1
        exact (max_eq_right (le_of_lt h)).symm
      · rw [if_neg h, ih]
        congr 1
        exact (max_eq_left (not_lt.mp h)).symm

theorem ddScan_pair (equity_curve : List EquityPoint) :
    ∀ (mdd mpct peak : ℚ),
      ((equity_curve.foldl ddStep (mdd, mpct, peak)).1 = mdd ∧
        (equity_curve.foldl ddStep (mdd, mpct, peak)).2.1 = mpct) ∨
      ((equity_curve.foldl ddStep (mdd, mpct, peak)).1,
        (equity_curve.foldl ddStep (mdd, mpct, peak)).2.1) ∈ ddTrace peak equity_curve := by
  induction equity_curve with
  | nil => intro mdd mpct peak; exact Or.inl ⟨rfl, rfl⟩
  | cons point rest ih =>
      intro mdd mpct peak
      simp only [List.foldl_cons, ddStep, ddTrace]
      by_cases h : (if point.equity > peak then point.equity else peak) - point.equity > mdd
      · rw [if_pos h]
        rcases ih ((if point.equity > peak then point.equity else peak) - point.equity)
            (if (if point.equity > peak then point.equity else peak) > 0 then
              ((if point.equity > peak then point.equity else peak) - point.equity) /
                (if point.equity > peak then point.equity else peak) * 100
            else 0)
            (if point.equity > peak then point.equity else peak) with h1 | h1
        · refine Or.inr (List.mem_cons.mpr (Or.inl ?_))
          rw [Prod.ext_iff]
          exact ⟨h1.1, h1.2⟩
        · exact Or.inr (List.mem_cons.mpr (Or.inr h1))
      · rw [if_neg h]
        rcases ih mdd mpct (if point.equity > peak then point.equity else peak) with h1 | h1
        · exact Or.inl h1
        · exact Or.inr (List.mem_cons.mpr (Or.inr h1))

def trX : Trade :=
  { entry_time := 0
    exit_time := 0
    type_ := PosType.LONG
    entry_price := 100
    exit_price := 100
    exit_reason := "End of Data"
    position_size := 1000
    pnl := 0
    pnl_pct := 0
    capital_after := 100 }

def curveX : List EquityPoint := [⟨0, 90⟩, ⟨1, 1000⟩, ⟨2, 985⟩]

/-- Claim C7 is false as stated: on the equity curve 90, 1000, 985 with
initial capital 100, the maximum percentage-of-peak drawdown observed is
10 percent (at the first point, peak 100, equity 90), but the scan updates
`max_drawdown_pct` only when the absolute drawdown sets a new maximum, so
it reports 1.5 percent (the percentage at the absolute-drawdown maximum of
15, against peak 1000) instead of the maximum percentage observed. -/
theorem C7_counterexample :
    (calculateMetrics 100 985 [trX] curveX).max_drawdown = 15 ∧
    (calculateMetrics 100 985 [trX] curveX).max_drawdown_pct = 3 / 2 ∧
    (ddTrace 100 curveX).foldl (fun a q => max a q.2) 0 = 10 ∧
    ¬ ((3 : ℚ) / 2 = 10) := by
  refine ⟨?_, ?_, ?_, by norm_num⟩ <;>
    norm_num [calculateMetrics, ddStep, ddTrace, curveX, trX, max_def]

/-- Claim C7 (amended): with a non-empty trade list, the metrics scan the
equity curve once with a running peak initialized to the initial capital
and drawdown `peak - equity` at each point; `max_drawdown` is the maximum
absolute drawdown observed (so it dominates `running peak - equity` at
every point), and `max_drawdown_pct` is the percentage-of-peak drawdown
recorded at a point where the maximum absolute drawdown is attained (both
zero when no positive drawdown occurs) — not the maximum percentage
observed. -/
theorem C7_drawdown (initial_capital current_capital : ℚ) (trades : List Trade)
    (equity_curve : List EquityPoint) (hne : trades ≠ []) :
    (calculateMetrics initial_capital current_capital trades equity_curve).max_drawdown =
      (ddTrace initial_capital equity_curve).foldl (fun a q => max a q.1) 0 ∧
    (∀ q ∈ ddTrace initial_capital equity_curve,
      q.1 ≤ (calculateMetrics initial_capital current_capital trades equity_curve).max_drawdown) ∧
    (((calculateMetrics initial_capital current_capital trades equity_curve).max_drawdown = 0 ∧
      (calculateMetrics initial_capital current_capital trades equity_curve).max_drawdown_pct = 0) ∨
      ((calculateMetrics initial_capital current_capital trades equity_curve).max_drawdown,
        (calculateMetrics initial_capital current_capital trades equity_curve).max_drawdown_pct) ∈
        ddTrace initial_capital equity_curve) := by
  cases trades with
  | nil => exact absurd rfl hne
  | cons t ts =>
      have hmd : (calculateMetrics initial_capital current_capital (t :: ts)
          equity_curve).max_drawdown = (equity_curve.foldl ddStep (0, 0, initial_capital)).1 := rfl
      have hmp : (calculateMetrics initial_capital current_capital (t :: ts)
          equity_curve).max_drawdown_pct =
          (equity_curve.foldl ddStep (0, 0, initial_capital)).2.1 := rfl
      rw [hmd, hmp]
      refine ⟨ddScan_max equity_curve 0 0 initial_capital, fun q hq => ?_, ?_⟩
      · rw [ddScan_max equity_curve 0 0 initial_capital]
        exact le_foldl_max_fst (ddTrace initial_capital equity_curve) 0 q (Or.inr hq)
      · exact ddScan_pair equity_curve 0 0 initial_capital

theorem C7_witness :
    (calculateMetrics 100 985 [trX] curveX).max_drawdown =
      (ddTrace 100 curveX).foldl (fun a q => max a q.1) 0 ∧
    (((calculateMetrics 100 985 [trX] curveX).max_drawdown = 0 ∧
       (calculateMetrics 100 985 [trX] curveX).max_drawdown_pct = 0) ∨
     ((calculateMetrics 100 985 [trX] curveX).max_drawdown,
       (calculateMetrics 100 985 [trX] curveX).max_drawdown_pct) ∈ ddTrace 100 curveX) := by
  have h := C7_drawdown 100 985 [trX] curveX (by simp)
  exact ⟨h.1, h.2.2⟩

/-! ### Claim C8 — the open-position ordering invariant -/

theorem trailingUpdate_inactive (cfg : Config) (row : Bar) (pos : Position)
    (h : trailingActive cfg = false) : trailingUpdate cfg row pos = pos := by
  unfold trailingUpdate
  rw [if_neg (by rw [h]; exact Bool.false_ne_true)]

def cfgT8 : Config := { cfgW with trailing_stop_pct := some 1 }

def setupT8 : Setup :=
  { signal := "sig"
    type_ := PosType.LONG
    entry := 100
    sl := 95
    tp := 300
    dca1 := 98
    dca2 := 95
    dca3 := 90 }

def fT8 : SetupFn := fun hist _ _ _ _ _ => if hist.length = 22 then some setupT8 else none

def dfT8 : List Bar :=
  List.replicate 21 ⟨0, 1, 1, 1, 1, 1⟩ ++ [⟨21, 100, 100, 99, 100, 1⟩, ⟨22, 200, 200, 199, 200, 1⟩]

theorem dfT8_e21 : dfT8[21]? = some ⟨21, 100, 100, 99, 100, 1⟩ := rfl

theorem dfT8_e22 : dfT8[22]? = some ⟨22, 200, 200, 199, 200, 1⟩ := rfl

theorem dfT8_g21 (h : 21 < dfT8.length) : dfT8[21] = ⟨21, 100, 100, 99, 100, 1⟩ := rfl

theorem dfT8_g22 (h : 22 < dfT8.length) : dfT8[22] = ⟨22, 200, 200, 199, 200, 1⟩ := rfl

theorem dfT8_len : dfT8.length = 23 := rfl

/-- Claim C8 is false as stated: run the engine (loop body of
`run_backtest`, bars 21 and 22 of a 23-bar input) with a 1 percent trailing
stop on a LONG position entered at 100 with stop 95; after the bar with
high 200 and low 199 the position is still open and its stop has been
trailed to 198, which is not below the entry price 100 — the invariant
`stop < entry` is violated at a bar boundary with an open position. -/
theorem C8_counterexample :
    trailingActive cfgT8 = true ∧
    ((List.range' 21 (dfT8.length - 21)).foldl (stepBar cfgT8 fT8 dfT8)
        (initState cfgT8)).open_position.map Position.type_ = some PosType.LONG ∧
    ((List.range' 21 (dfT8.length - 21)).foldl (stepBar cfgT8 fT8 dfT8)
        (initState cfgT8)).open_position.map Position.entry_price = some 100 ∧
    ((List.range' 21 (dfT8.length - 21)).foldl (stepBar cfgT8 fT8 dfT8)
        (initState cfgT8)).open_position.map Position.sl = some 198 ∧
    ¬ ((198 : ℚ) < 100) := by
  refine ⟨by norm_num [trailingActive, cfgT8, cfgW], ?_, ?_, ?_, by norm_num⟩ <;>
    norm_num [dfT8_len, List.range', stepBar, positionPhase, entryPhase, recordEquity,
      initState, trailingUpdate, trailingActive, dcaUpdate, checkExit, openedPosition,
      calculatePnl, cfgT8, cfgW, fT8, setupT8, dfT8_e21, dfT8_e22, dfT8_g21, dfT8_g22,
      max_def, min_def]

/-- The ordering invariant of an open position, strengthened to an
inductive one: positive sizes, stop strictly on the loss side of the
(weighted-average) entry, entry dominated by the tracked extreme, and the
remaining DCA levels strictly on the adverse side of the entry, ordered
outward (nothing is assumed about the stop's location relative to the
levels). -/
def posOk (pos : Position) : Prop :=
  0 < pos.position_size ∧ 0 < pos.initial_size ∧
  (match pos.type_ with
   | PosType.LONG =>
       pos.sl < pos.entry_price ∧ pos.entry_price ≤ pos.extreme ∧
       (∀ L ∈ pos.dca_levels, L < pos.entry_price) ∧
       pos.dca_levels.Pairwise (fun a b => b < a)
   | PosType.SHORT =>
       pos.entry_price < pos.sl ∧ pos.extreme ≤ pos.entry_price ∧
       (∀ L ∈ pos.dca_levels, pos.entry_price < L) ∧
       pos.dca_levels.Pairwise (fun a b => a < b))

/-- Sanity of a setup relative to its entry bar: the orderings
`get_trade_setup` establishes for a positive current price — entry at the
bar's close (hence within its range), stop on the loss side of the entry,
and the three DCA levels on the adverse side of the entry in outward order
(`0.98/0.95/0.90 × price` for LONG, `1.02/1.05/1.10 × price` for SHORT).
Nothing relates the stop to the DCA levels: the stop
`min(last-5-low, entry - 2*ATR)` may well lie above them. -/
def saneSetup (s : Setup) (row : Bar) : Prop :=
  match s.type_ with
  | PosType.LONG =>
      s.sl < s.entry ∧ s.entry ≤ row.high ∧
      s.dca3 < s.dca2 ∧ s.dca2 < s.dca1 ∧ s.dca1 < s.entry
  | PosType.SHORT =>
      s.entry < s.sl ∧ row.low ≤ s.entry ∧
      s.dca2 < s.dca3 ∧ s.dca1 < s.dca2 ∧ s.entry < s.dca1

/-- If the exit check neither closed the position nor computed a zero exit
price, the stop branch did not fire: the bar's low (LONG) resp. high
(SHORT) stayed strictly on the profit side of the stop. -/
theorem checkExit_no_stop_hit (row : Bar) (p : Position) (hsl : p.sl ≠ 0)
    (hsurv : checkExit row p = none ∨ ∃ er, checkExit row p = some (0, er)) :
    match p.type_ with
    | PosType.LONG => ¬ row.low ≤ p.sl
    | PosType.SHORT => ¬ row.high ≥ p.sl := by
  cases htype : p.type_ with
  | LONG =>
      show ¬ row.low ≤ p.sl
      intro hlow
      have hce : checkExit row p = some (p.sl, "Stop Loss") := by
        simp only [checkExit, htype]
        rw [if_pos hlow]
      rcases hsurv with h | ⟨er, h⟩
      · rw [hce] at h
        exact Option.noConfusion h
      · rw [hce] at h
        exact hsl (congrArg Prod.fst (Option.some.inj h))
  | SHORT =>
      show ¬ row.high ≥ p.sl
      intro hhigh
      have hce : checkExit row p = some (p.sl, "Stop Loss") := by
        simp only [checkExit, htype]
        rw [if_pos hhigh]
      rcases hsurv with h | ⟨er, h⟩
      · rw [hce] at h
        exact Option.noConfusion h
      · rw [hce] at h
        exact hsl (congrArg Prod.fst (Option.some.inj h))

/-- The DCA update re-establishes the position invariant on a bar whose
low (LONG) resp. high (SHORT) stayed strictly beyond the stop: a level the
bar reached then lies strictly beyond the stop as well, so the re-averaged
entry (a strict convex combination of the old entry and the level, both on
the profit side of the stop) stays on the profit side of the stop. -/
theorem dcaUpdate_posOk (cfg : Config) (row : Bar) (pos : Position) (hok : posOk pos)
    (hsurv : match pos.type_ with
             | PosType.LONG => ¬ row.low ≤ pos.sl
             | PosType.SHORT => ¬ row.high ≥ pos.sl) :
    posOk (dcaUpdate cfg row pos) := by
  by_cases hd : cfg.use_dca = true
  · cases hl : pos.dca_levels with
    | nil =>
        have he : dcaUpdate cfg row pos = pos := by
          simp only [dcaUpdate, hd, if_true, hl]
        rw [he]
        exact hok
    | cons L rest =>
        obtain ⟨hs, hi, hrest⟩ := hok
        cases htype : pos.type_ with
        | LONG =>
            rw [htype] at hrest
            have hsurv1 : ¬ row.low ≤ pos.sl := by
              rw [htype] at hsurv
              exact hsurv
            obtain ⟨hsl, hee, hlv, hpw⟩ := hrest
            by_cases htrig : row.low ≤ L
            · have he : dcaUpdate cfg row pos =
                  { pos with
                      entry_price := (pos.entry_price * pos.position_size +
                        L * pos.initial_size) / (pos.position_size + pos.initial_size)
                      position_size := pos.position_size + pos.initial_size
                      dca_levels := rest } := by
                simp only [dcaUpdate, hd, if_true, hl, htype]
                rw [if_pos (by simp [htrig])]
              rw [he]
              have hsum : 0 < pos.position_size + pos.initial_size := by linarith
              have hLe : L < pos.entry_price :=
                hlv L (by rw [hl]; exact List.mem_cons_self L rest)
              have hsL : pos.sl < L := lt_of_lt_of_le (not_le.mp hsurv1) htrig
              have havgU : (pos.entry_price * pos.position_size + L * pos.initial_size) /
                  (pos.position_size + pos.initial_size) < pos.entry_price := by
                rw [div_lt_iff₀ hsum]
                nlinarith [mul_pos hi (sub_pos.mpr hLe)]
              have havgL : L < (pos.entry_price * pos.position_size + L * pos.initial_size) /
                  (pos.position_size + pos.initial_size) := by
                rw [lt_div_iff₀ hsum]
                nlinarith [mul_pos hs (sub_pos.mpr hLe)]
              have hpw' := List.pairwise_cons.mp (hl ▸ hpw)
              refine ⟨by simpa using hsum, by simpa using hi, ?_⟩
              simp only [htype]
              refine ⟨lt_trans hsL havgL, le_trans (le_of_lt havgU) hee, ?_, hpw'.2⟩
              intro lvl hlvl
              exact lt_trans (hpw'.1 lvl hlvl) havgL
            · have he : dcaUpdate cfg row pos = pos := by
                simp only [dcaUpdate, hd, if_true, hl, htype]
                rw [if_neg (by simp [htrig])]
              rw [he]
              refine ⟨hs, hi, ?_⟩
              rw [htype]
              exact ⟨hsl, hee, hlv, hpw⟩
        | SHORT =>
            rw [htype] at hrest
            have hsurv1 : ¬ row.high ≥ pos.sl := by
              rw [htype] at hsurv
              exact hsurv
            obtain ⟨hsl, hee, hlv, hpw⟩ := hrest
            by_cases htrig : row.high ≥ L
            · have he : dcaUpdate cfg row pos =
                  { pos with
                      entry_price := (pos.entry_price * pos.position_size +
                        L * pos.initial_size) / (pos.position_size + pos.initial_size)
                      position_size := pos.position_size + pos.initial_size
                      dca_levels := rest } := by
                simp only [dcaUpdate, hd, if_true, hl, htype]
                rw [if_pos (by simp [htrig])]
              rw [he]
              have hsum : 0 < pos.position_size + pos.initial_size := by linarith
              have hLe : pos.entry_price < L :=
                hlv L (by rw [hl]; exact List.mem_cons_self L rest)
              have hsL : L < pos.sl := lt_of_le_of_lt htrig (not_le.mp hsurv1)
              have havgU : (pos.entry_price * pos.position_size + L * pos.initial_size) /
                  (pos.position_size + pos.initial_size) < L := by
                rw [div_lt_iff₀ hsum]
                nlinarith [mul_pos hs (sub_pos.mpr hLe)]
              have havgL : pos.entry_price <
                  (pos.entry_price * pos.position_size + L * pos.initial_size) /
                    (pos.position_size + pos.initial_size) := by
                rw [lt_div_iff₀ hsum]
                nlinarith [mul_pos hi (sub_pos.mpr hLe)]
              have hpw' := List.pairwise_cons.mp (hl ▸ hpw)
              refine ⟨by simpa using hsum, by simpa using hi, ?_⟩
              simp only [htype]
              refine ⟨lt_trans havgU hsL, le_trans hee (le_of_lt havgL), ?_, hpw'.2⟩
              intro lvl hlvl
              exact lt_trans havgU (hpw'.1 lvl hlvl)
            · have he : dcaUpdate cfg row pos = pos := by
                simp only [dcaUpdate, hd, if_true, hl, htype]
                rw [if_neg (by simp [htrig])]
              rw [he]
              refine ⟨hs, hi, ?_⟩
              rw [htype]
              exact ⟨hsl, hee, hlv, hpw⟩
  · have he : dcaUpdate cfg row pos = pos := by
      simp only [dcaUpdate]
      rw [if_neg hd]
    rw [he]
    exact hok

/-- Claim C8 (amended): at every bar boundary while a position is open,
the position satisfies `size > 0` and `stop < entry ≤ extreme` (LONG)
resp. `stop > entry ≥ extreme` (SHORT), provided no trailing stop is
configured and the stop price is nonzero.  The invariant is established
when a position opens from a setup with positive size satisfying the
orderings `get_trade_setup` produces (stop on the loss side of the entry,
entry within the entry bar's range, DCA levels on the adverse side of the
entry in outward order — nothing is assumed about the stop relative to the
levels), and it is re-established for every position still open after a
bar's management: a surviving bar's low (high) stayed strictly beyond the
stop, so any DCA level it reached lies strictly beyond the stop as well
and the re-averaged entry stays on the profit side of the stop — the DCA
re-averaging can violate the ordering only transiently, within a bar on
which the trade then closes at the stop.  With a trailing stop configured
the stop may be tightened past the entry, falsifying `stop < entry` (the
counterexample). -/
theorem C8_position_invariant (cfg : Config) (row : Bar) (st : RunState) (pos : Position)
    (htr : trailingActive cfg = false) (hopen : st.open_position = some pos)
    (hok : posOk pos) (hsl : pos.sl ≠ 0) :
    (∀ pos1, (positionPhase cfg row st).open_position = some pos1 → posOk pos1) ∧
    (∀ (s : Setup) (time : ℤ) (row2 : Bar) (psize : ℚ),
      saneSetup s row2 → 0 < psize → posOk (openedPosition cfg s time row2 psize)) := by
  constructor
  · intro pos1 hopen1
    have htu : trailingUpdate cfg row pos = pos := trailingUpdate_inactive cfg row pos htr
    have hpp : positionPhase cfg row st =
        (match checkExit row (dcaUpdate cfg row pos) with
         | none => { st with open_position := some (dcaUpdate cfg row pos) }
         | some (exit_price, exit_reason) =>
             if exit_price = 0 then { st with open_position := some (dcaUpdate cfg row pos) }
             else closeTrade row.time st (dcaUpdate cfg row pos) exit_price exit_reason) := by
      simp only [positionPhase, hopen, htu]
    have hsl1 : (dcaUpdate cfg row pos).sl = pos.sl := dcaUpdate_sl cfg row pos
    have htype1 : (dcaUpdate cfg row pos).type_ = pos.type_ := dcaUpdate_type cfg row pos
    have hnz : (dcaUpdate cfg row pos).sl ≠ 0 := by
      rw [hsl1]
      exact hsl
    cases hce : checkExit row (dcaUpdate cfg row pos) with
    | none =>
        rw [hpp, hce] at hopen1
        have hsurv := checkExit_no_stop_hit row (dcaUpdate cfg row pos) hnz (Or.inl hce)
        rw [htype1, hsl1] at hsurv
        rw [← Option.some.inj hopen1]
        exact dcaUpdate_posOk cfg row pos hok hsurv
    | some pr =>
        obtain ⟨a, b⟩ := pr
        rw [hpp, hce] at hopen1
        by_cases hz : a = 0
        · have hopen2 : (if a = 0 then { st with open_position := some (dcaUpdate cfg row pos) }
              else closeTrade row.time st (dcaUpdate cfg row pos) a b).open_position =
                some pos1 := hopen1
          rw [if_pos hz] at hopen2
          have hce0 : checkExit row (dcaUpdate cfg row pos) = some (0, b) := by
            rw [hce, hz]
          have hsurv := checkExit_no_stop_hit row (dcaUpdate cfg row pos) hnz
            (Or.inr ⟨b, hce0⟩)
          rw [htype1, hsl1] at hsurv
          rw [← Option.some.inj hopen2]
          exact dcaUpdate_posOk cfg row pos hok hsurv
        · have hopen2 : (if a = 0 then { st with open_position := some (dcaUpdate cfg row pos) }
              else closeTrade row.time st (dcaUpdate cfg row pos) a b).open_position =
                some pos1 := hopen1
          rw [if_neg hz] at hopen2
          have hnone : (none : Option Position) = some pos1 := hopen2
          exact Option.noConfusion hnone
  · intro s time row2 psize hsane hps
    cases hst : s.type_ with
    | LONG =>
        rw [saneSetup, hst] at hsane
        obtain ⟨h1, h2, h3, h4, h5⟩ := hsane
        refine ⟨hps, hps, ?_⟩
        simp only [openedPosition, hst]
        refine ⟨h1, h2, ?_, ?_⟩
        · intro L hL
          by_cases hd : cfg.use_dca = true
          · rw [if_pos hd] at hL
            rcases List.mem_cons.mp hL with h | h
            · rw [h]
              exact h5
            rcases List.mem_cons.mp h with h | h
            · rw [h]
              linarith
            rcases List.mem_cons.mp h with h | h
            · rw [h]
              linarith
            · cases h
          · rw [if_neg hd] at hL
            cases hL
        · by_cases hd : cfg.use_dca = true
          · rw [if_pos hd]
            refine List.pairwise_cons.mpr ⟨?_, List.pairwise_cons.mpr ⟨?_, ?_⟩⟩
            · intro b hb
              rcases List.mem_cons.mp hb with h | h
              · rw [h]
                exact h4
              rcases List.mem_cons.mp h with h | h
              · rw [h]
                linarith
              · cases h
            · intro b hb
              rcases List.mem_cons.mp hb with h | h
              · rw [h]
                exact h3
              · cases h
            · exact List.pairwise_singleton _ _
          · rw [if_neg hd]
            exact List.Pairwise.nil
    | SHORT =>
        rw [saneSetup, hst] at hsane
        obtain ⟨h1, h2, h3, h4, h5⟩ := hsane
        refine ⟨hps, hps, ?_⟩
        simp only [openedPosition, hst]
        refine ⟨h1, h2, ?_, ?_⟩
        · intro L hL
          by_cases hd : cfg.use_dca = true
          · rw [if_pos hd] at hL
            rcases List.mem_cons.mp hL with h | h
            · rw [h]
              exact h5
            rcases List.mem_cons.mp h with h | h
            · rw [h]
              linarith
            rcases List.mem_cons.mp h with h | h
            · rw [h]
              linarith
            · cases h
          · rw [if_neg hd] at hL
            cases hL
        · by_cases hd : cfg.use_dca = true
          · rw [if_pos hd]
            refine List.pairwise_cons.mpr ⟨?_, List.pairwise_cons.mpr ⟨?_, ?_⟩⟩
            · intro b hb
              rcases List.mem_cons.mp hb with h | h
              · rw [h]
                exact h4
              rcases List.mem_cons.mp h with h | h
              · rw [h]
                linarith
              · cases h
            · intro b hb
              rcases List.mem_cons.mp hb with h | h
              · rw [h]
                exact h3
              · cases h
            · exact List.pairwise_singleton _ _
          · rw [if_neg hd]
            exact List.Pairwise.nil

def setupS : Setup :=
  { signal := "sig"
    type_ := PosType.LONG
    entry := 100
    sl := 85
    tp := 120
    dca1 := 98
    dca2 := 95
    dca3 := 90 }

def stD : RunState :=
  { trades := []
    equity_curve := []
    current_capital := 10000
    peak_capital := 10000
    open_position := some posD }

theorem C8_witness :
    posOk { posD with
      entry_price := 99
      position_size := 2000
      dca_levels := [95, 90] } ∧
    posOk (openedPosition cfgD setupS 21 ⟨21, 100, 100, 99, 100, 1⟩ 1000) := by
  have h := C8_position_invariant cfgD rowD stD posD
    (by norm_num [trailingActive, cfgD, cfgW]) rfl
    (by refine ⟨by norm_num [posD], by norm_num [posD], ?_⟩
        norm_num [posD, List.Pairwise])
    (by norm_num [posD])
  refine ⟨?_, h.2 setupS 21 ⟨21, 100, 100, 99, 100, 1⟩ 1000
    (by norm_num [saneSetup, setupS]) (by norm_num)⟩
  apply h.1
  norm_num [positionPhase, dcaUpdate, trailingUpdate, trailingActive, checkExit,
    cfgD, cfgW, stD, posD, rowD]

/-! ### Claim C5 — the equity curve -/

theorem foldl_equity_times (cfg : Config) (fsetup : SetupFn) (df : List Bar) :
    ∀ (L : List ℕ) (st : RunState),
      ((L.foldl (stepBar cfg fsetup df) st).equity_curve).map EquityPoint.time =
        st.equity_curve.map EquityPoint.time ++ L.map (fun i => (df.getD i bar0).time) := by
  intro L
  induction L with
  | nil => intro st; simp
  | cons a t ih =>
      intro st
      rw [List.foldl_cons, ih, stepBar_equity]
      simp [List.map_append]

theorem range'_map_getD_time (l : List Bar) (a : ℕ) (h : a ≤ l.length) :
    (List.range' a (l.length - a)).map (fun i => (l.getD i bar0).time) =
      (l.drop a).map Bar.time := by
  apply List.ext_getElem
  · simp
  · intro i h1 h2
    simp only [List.getElem_map, List.getElem_range', List.getElem_drop, one_mul]
    have hlt : a + i < l.length := by
      simp only [List.length_map, List.length_range'] at h1
      omega
    rw [List.getD_eq_getElem l bar0 hlt]

/-- Claim C5: a successful run over `n ≥ 22` bars returns an equity curve
with exactly one point per processed bar (indices 21 through `n-1`), whose
timestamps equal those bars' timestamps in order with no gaps; and each
per-bar step appends exactly one point whose equity is the current
realized capital plus the unrealized PnL of the open position at that
bar's close (zero when no position is open). -/
theorem C5_equity_curve (cfg : Config) (fsetup : SetupFn) (df : List Bar) (res : RunResult)
    (hres : runBacktest cfg fsetup df = some res) :
    res.equity_curve.length = df.length - 21 ∧
    res.equity_curve.map EquityPoint.time = (df.drop 21).map Bar.time ∧
    (∀ (st : RunState) (i : ℕ),
      (stepBar cfg fsetup df st i).equity_curve =
        st.equity_curve ++
          [⟨(df.getD i bar0).time,
            (entryPhase cfg fsetup df i (positionPhase cfg (df.getD i bar0) st)).current_capital +
              (match (entryPhase cfg fsetup df i
                  (positionPhase cfg (df.getD i bar0) st)).open_position with
               | some pos => calculatePnl pos (df.getD i bar0).close
               | none => 0)⟩]) := by
  have hlen : ¬ df.length < 22 := by
    intro h
    rw [runBacktest, if_pos h] at hres
    exact Option.noConfusion hres
  rw [runBacktest, if_neg hlen] at hres
  have hr := Option.some.inj hres
  have htimes : res.equity_curve.map EquityPoint.time = (df.drop 21).map Bar.time := by
    rw [← hr]
    show (finalClose df ((List.range' 21 (df.length - 21)).foldl (stepBar cfg fsetup df)
      (initState cfg))).equity_curve.map EquityPoint.time = (df.drop 21).map Bar.time
    rw [finalClose_equity, foldl_equity_times]
    show ((initState cfg).equity_curve).map EquityPoint.time ++
        (List.range' 21 (df.length - 21)).map (fun i => (df.getD i bar0).time) =
      (df.drop 21).map Bar.time
    rw [range'_map_getD_time df 21 (by omega)]
    rfl
  refine ⟨?_, htimes, fun st i => stepBar_equity cfg fsetup df st i⟩
  have := congrArg List.length htimes
  simpa using this

def resW : RunResult :=
  { metrics := ⟨0, 0, 0, 0, 0, 0, 0, 0, 0, 0, 0, 0, 0, 0, 0⟩
    trades := []
    equity_curve := [⟨0, 10000⟩] }

theorem flat22_e21 : (flatBars 22)[21]? = some ⟨0, 1, 1, 1, 1, 1⟩ := rfl

theorem flat22_g21 (h : 21 < (flatBars 22).length) : (flatBars 22)[21] = ⟨0, 1, 1, 1, 1, 1⟩ := rfl

theorem flat22_len : (flatBars 22).length = 22 := rfl

theorem runW_eval : runBacktest cfgW noSetup (flatBars 22) = some resW := by
  norm_num [runBacktest, flat22_len, List.range', stepBar, positionPhase, entryPhase,
    recordEquity, initState, finalClose, calculateMetrics, noSetup, cfgW, resW,
    flat22_e21, flat22_g21]

theorem C5_witness :
    resW.equity_curve.length = (flatBars 22).length - 21 ∧
    resW.equity_curve.map EquityPoint.time = ((flatBars 22).drop 21).map Bar.time := by
  have h := C5_equity_curve cfgW noSetup (flatBars 22) resW runW_eval
  exact ⟨h.1, h.2.1⟩

/-! ### Claim C4 — trade accounting -/

theorem foldl_range'_inv {α : Type} (f : α → ℕ → α) (P : ℕ → α → Prop) :
    ∀ (k a : ℕ) (st : α), P a st →
      (∀ i s, a ≤ i → i < a + k → P i s → P (i + 1) (f s i)) →
      P (a + k) ((List.range' a k).foldl f st) := by
  intro k
  induction k with
  | zero =>
      intro a st h0 _
      simpa using h0
  | succ n ih =>
      intro a st h0 hstep
      rw [List.range'_succ, List.foldl_cons]
      have h1 : P (a + 1) (f st a) := hstep a st le_rfl (by omega) h0
      have h2 := ih (a + 1) (f st a) h1 (fun i s hi hlt hp => hstep i s (by omega) (by omega) hp)
      have heq : a + 1 + n = a + (n + 1) := by omega
      rwa [heq] at h2

theorem entryPhase_open_cases (cfg : Config) (fsetup : SetupFn) (df : List Bar) (i : ℕ)
    (st : RunState) :
    (entryPhase cfg fsetup df i st).open_position = st.open_position ∨
    (∃ pos, (entryPhase cfg fsetup df i st).open_position = some pos ∧
      pos.entry_time = (df.getD i bar0).time) := by
  simp only [entryPhase]
  split
  · exact Or.inl rfl
  · split
    · exact Or.inl rfl
    · exact Or.inr ⟨_, rfl, rfl⟩

theorem positionPhase_cases (cfg : Config) (row : Bar) (st : RunState) :
    (positionPhase cfg row st = st ∧ st.open_position = none) ∨
    (∃ pos pos1, st.open_position = some pos ∧
      pos1 = dcaUpdate cfg row (trailingUpdate cfg row pos) ∧
      positionPhase cfg row st = { st with open_position := some pos1 } ∧
      pos1.entry_time = pos.entry_time) ∨
    (∃ pos pos1 exit_price exit_reason, st.open_position = some pos ∧
      pos1 = dcaUpdate cfg row (trailingUpdate cfg row pos) ∧
      positionPhase cfg row st = closeTrade row.time st pos1 exit_price exit_reason ∧
      pos1.entry_time = pos.entry_time) := by
  cases hop : st.open_position with
  | none =>
      left
      constructor
      · simp only [positionPhase, hop]
      · rfl
  | some pos =>
      right
      have hent : (dcaUpdate cfg row (trailingUpdate cfg row pos)).entry_time =
          pos.entry_time := by
        rw [dcaUpdate_entry_time, trailingUpdate_entry_time]
      cases hce : checkExit row (dcaUpdate cfg row (trailingUpdate cfg row pos)) with
      | none =>
          left
          refine ⟨pos, _, rfl, rfl, ?_, hent⟩
          simp only [positionPhase, hop, hce]
      | some pr =>
          by_cases hz : pr.1 = 0
          · left
            refine ⟨pos, _, rfl, rfl, ?_, hent⟩
            simp only [positionPhase, hop]
            cases pr with
            | mk a b =>
                simp only [hce]
                simp only at hz
                rw [if_pos hz]
          · right
            refine ⟨pos, _, pr.1, pr.2, rfl, rfl, ?_, hent⟩
            simp only [positionPhase, hop]
            cases pr with
            | mk a b =>
                simp only [hce]
                simp only at hz
                rw [if_neg hz]

theorem closeTrade_trades (time : ℤ) (st : RunState) (pos : Position) (exit_price : ℚ)
    (exit_reason : String) :
    (closeTrade time st pos exit_price exit_reason).trades = st.trades ++
      [{ entry_time := pos.entry_time
         exit_time := time
         type_ := pos.type_
         entry_price := pos.entry_price
         exit_price := exit_price
         exit_reason := exit_reason
         position_size := pos.position_size
         pnl := calculatePnl pos exit_price
         pnl_pct := calculatePnl pos exit_price / pos.position_size * 100
         capital_after := st.current_capital + calculatePnl pos exit_price }] := rfl

theorem closeTrade_capital (time : ℤ) (st : RunState) (pos : Position) (exit_price : ℚ)
    (exit_reason : String) :
    (closeTrade time st pos exit_price exit_reason).current_capital =
      st.current_capital + calculatePnl pos exit_price := rfl

theorem closeTrade_open (time : ℤ) (st : RunState) (pos : Position) (exit_price : ℚ)
    (exit_reason : String) :
    (closeTrade time st pos exit_price exit_reason).open_position = none := rfl

def tr0 : Trade := ⟨0, 0, PosType.LONG, 0, 0, "", 0, 0, 0, 0⟩

/-- The run-long bookkeeping invariant behind claim C4, at the state
reached before processing bar index `i`. -/
def C4Inv (cfg : Config) (df : List Bar) (i : ℕ) (st : RunState) : Prop :=
  st.current_capital = cfg.initial_capital + (st.trades.map Trade.pnl).sum ∧
  (∀ k : ℕ, k < st.trades.length →
    (st.trades.getD k tr0).entry_time ≤ (st.trades.getD k tr0).exit_time ∧
    (st.trades.getD k tr0).pnl = pnlFormula (st.trades.getD k tr0).type_
      (st.trades.getD k tr0).position_size (st.trades.getD k tr0).entry_price
      (st.trades.getD k tr0).exit_price ∧
    (st.trades.getD k tr0).capital_after =
      cfg.initial_capital + ((st.trades.take (k + 1)).map Trade.pnl).sum) ∧
  (∀ pos, st.open_position = some pos →
    ∃ j, j < df.length ∧ j < i ∧ pos.entry_time = (df.getD j bar0).time)

theorem tradeList_append (cfg : Config) (l : List Trade) (tr : Trade)
    (hl : ∀ k : ℕ, k < l.length →
      (l.getD k tr0).entry_time ≤ (l.getD k tr0).exit_time ∧
      (l.getD k tr0).pnl = pnlFormula (l.getD k tr0).type_ (l.getD k tr0).position_size
        (l.getD k tr0).entry_price (l.getD k tr0).exit_price ∧
      (l.getD k tr0).capital_after =
        cfg.initial_capital + ((l.take (k + 1)).map Trade.pnl).sum)
    (htime : tr.entry_time ≤ tr.exit_time)
    (hpnl : tr.pnl = pnlFormula tr.type_ tr.position_size tr.entry_price tr.exit_price)
    (hcap : tr.capital_after = cfg.initial_capital + (l.map Trade.pnl).sum + tr.pnl) :
    ∀ k : ℕ, k < (l ++ [tr]).length →
      ((l ++ [tr]).getD k tr0).entry_time ≤ ((l ++ [tr]).getD k tr0).exit_time ∧
      ((l ++ [tr]).getD k tr0).pnl = pnlFormula ((l ++ [tr]).getD k tr0).type_
        ((l ++ [tr]).getD k tr0).position_size ((l ++ [tr]).getD k tr0).entry_price
        ((l ++ [tr]).getD k tr0).exit_price ∧
      ((l ++ [tr]).getD k tr0).capital_after =
        cfg.initial_capital + (((l ++ [tr]).take (k + 1)).map Trade.pnl).sum := by
  intro k h
  by_cases hk : k < l.length
  · have hget : (l ++ [tr]).getD k tr0 = l.getD k tr0 := by
      rw [List.getD_eq_getElem (l ++ [tr]) tr0 (by simpa using h),
        List.getD_eq_getElem l tr0 hk]
      exact List.getElem_append_left hk
    have htake : (l ++ [tr]).take (k + 1) = l.take (k + 1) :=
      List.take_append_of_le_length hk
    rw [hget, htake]
    exact hl k hk
  · have hkl : k = l.length := by
      simp only [List.length_append, List.length_singleton] at h
      omega
    have hget : (l ++ [tr]).getD k tr0 = tr := by
      rw [List.getD_eq_getElem (l ++ [tr]) tr0 (by simpa using h)]
      subst hkl
      rw [List.getElem_append_right (le_refl l.length)]
      simp
    have htake : (l ++ [tr]).take (k + 1) = l ++ [tr] := by
      apply List.take_of_length_le
      simp only [List.length_append, List.length_singleton]
      omega
    rw [hget, htake]
    refine ⟨htime, hpnl, ?_⟩
    rw [hcap]
    simp [add_assoc]

theorem finalClose_cases (df : List Bar) (st : RunState) :
    (finalClose df st = st ∧ st.open_position = none) ∨
    (∃ pos, st.open_position = some pos ∧
      finalClose df st = { st with
        trades := st.trades ++
          [{ entry_time := pos.entry_time
             exit_time := (df.getD (df.length - 1) bar0).time
             type_ := pos.type_
             entry_price := pos.entry_price
             exit_price := (df.getD (df.length - 1) bar0).close
             exit_reason := "End of Data"
             position_size := pos.position_size
             pnl := calculatePnl pos (df.getD (df.length - 1) bar0).close
             pnl_pct := calculatePnl pos (df.getD (df.length - 1) bar0).close /
               pos.position_size * 100
             capital_after := st.current_capital +
               calculatePnl pos (df.getD (df.length - 1) bar0).close }]
        current_capital := st.current_capital +
          calculatePnl pos (df.getD (df.length - 1) bar0).close
        open_position := none }) := by
  cases hop : st.open_position with
  | none =>
      left
      exact ⟨by simp only [finalClose, hop], rfl⟩
  | some pos =>
      right
      exact ⟨pos, rfl, by simp only [finalClose, hop]⟩

theorem stepBar_capital (cfg : Config) (fsetup : SetupFn) (df : List Bar) (st : RunState)
    (i : ℕ) :
    (stepBar cfg fsetup df st i).current_capital =
      (positionPhase cfg (df.getD i bar0) st).current_capital := by
  simp only [stepBar, recordEquity_capital, entryPhase_capital]

theorem stepBar_open_eq (cfg : Config) (fsetup : SetupFn) (df : List Bar) (st : RunState)
    (i : ℕ) :
    (stepBar cfg fsetup df st i).open_position =
      (entryPhase cfg fsetup df i (positionPhase cfg (df.getD i bar0) st)).open_position := by
  simp only [stepBar, recordEquity_open]

theorem C4_step (cfg : Config) (fsetup : SetupFn) (df : List Bar)
    (hmono : ∀ j, j < df.length → ∀ i, i ≤ j →
      (df.getD i bar0).time ≤ (df.getD j bar0).time) :
    ∀ (i : ℕ) (st : RunState), i < df.length → C4Inv cfg df i st →
      C4Inv cfg df (i + 1) (stepBar cfg fsetup df st i) := by
  intro i st hin hinv
  obtain ⟨hcap, htr, hopen⟩ := hinv
  have htr' := stepBar_trades cfg fsetup df st i
  have hcap' := stepBar_capital cfg fsetup df st i
  have hopen' := stepBar_open_eq cfg fsetup df st i
  have hopenNew : ∀ (pp : RunState), pp.open_position = none ∨
      (∃ pos1, pp.open_position = some pos1 ∧
        (∃ j, j < df.length ∧ j < i + 1 ∧ pos1.entry_time = (df.getD j bar0).time)) →
      (∀ pos2, (entryPhase cfg fsetup df i pp).open_position = some pos2 →
        ∃ j, j < df.length ∧ j < i + 1 ∧ pos2.entry_time = (df.getD j bar0).time) := by
    intro pp hpp pos2 h2
    rcases entryPhase_open_cases cfg fsetup df i pp with hsame | ⟨q, hq, hqt⟩
    · rw [hsame] at h2
      rcases hpp with hpp | ⟨pos1, hpos1, j, hj, hji, heq⟩
      · rw [hpp] at h2
        exact Option.noConfusion h2
      · rw [hpos1] at h2
        have : pos1 = pos2 := Option.some.inj h2
        exact ⟨j, hj, hji, this ▸ heq⟩
    · rw [hq] at h2
      have : q = pos2 := Option.some.inj h2
      exact ⟨i, hin, by omega, this ▸ hqt⟩
  rcases positionPhase_cases cfg (df.getD i bar0) st with
    ⟨hpp, hnone⟩ | ⟨pos, pos1, hop, hp1, hpp, hent⟩ | ⟨pos, pos1, ep, er, hop, hp1, hpp, hent⟩
  · refine ⟨?_, ?_, ?_⟩
    · rw [hcap', htr', hpp]
      exact hcap
    · intro k h
      rw [htr', hpp] at h ⊢
      exact htr k h
    · intro pos2 h2
      rw [hopen'] at h2
      exact hopenNew (positionPhase cfg (df.getD i bar0) st)
        (Or.inl (by rw [hpp]; exact hnone)) pos2 h2
  · refine ⟨?_, ?_, ?_⟩
    · rw [hcap', htr', hpp]
      exact hcap
    · intro k h
      rw [htr', hpp] at h ⊢
      exact htr k h
    · intro pos2 h2
      rw [hopen'] at h2
      obtain ⟨j, hj, hji, heq⟩ := hopen pos hop
      exact hopenNew (positionPhase cfg (df.getD i bar0) st)
        (Or.inr ⟨pos1, by rw [hpp], j, hj, by omega, hent ▸ heq⟩) pos2 h2
  · obtain ⟨j, hj, hji, heq⟩ := hopen pos hop
    have hlist := tradeList_append cfg st.trades
      { entry_time := pos1.entry_time
        exit_time := (df.getD i bar0).time
        type_ := pos1.type_
        entry_price := pos1.entry_price
        exit_price := ep
        exit_reason := er
        position_size := pos1.position_size
        pnl := calculatePnl pos1 ep
        pnl_pct := calculatePnl pos1 ep / pos1.position_size * 100
        capital_after := st.current_capital + calculatePnl pos1 ep }
      htr
      (by
        show pos1.entry_time ≤ (df.getD i bar0).time
        rw [hent, heq]
        exact hmono i hin j (by omega))
      (calculatePnl_formula pos1 ep)
      (by
        show st.current_capital + calculatePnl pos1 ep = _
        rw [hcap])
    refine ⟨?_, ?_, ?_⟩
    · rw [hcap', htr', hpp, closeTrade_capital, closeTrade_trades, hcap]
      simp [add_assoc]
    · intro k h
      rw [htr', hpp, closeTrade_trades] at h ⊢
      exact hlist k h
    · intro pos2 h2
      rw [hopen'] at h2
      exact hopenNew (positionPhase cfg (df.getD i bar0) st)
        (Or.inl (by rw [hpp]; exact closeTrade_open _ _ _ _ _)) pos2 h2

/-- Claim C4: in every successful run over time-ordered bars, each closed
trade has `exit_time ≥ entry_time`; its `pnl` equals
`size * (exit - entry) / entry` for LONG and `size * (entry - exit) / entry`
for SHORT, evaluated on the trade's recorded (DCA-weighted average) entry
price; `capital_after` is the initial capital plus the sum of this and all
earlier trades' PnLs in list order; and the unrealized PnL recorded in the
equity curve uses the identical formula with the bar's close as exit
price. -/
theorem C4_trade_accounting (cfg : Config) (fsetup : SetupFn) (df : List Bar)
    (res : RunResult)
    (hmono : ∀ j, j < df.length → ∀ i, i ≤ j →
      (df.getD i bar0).time ≤ (df.getD j bar0).time)
    (hres : runBacktest cfg fsetup df = some res) :
    (∀ k : ℕ, k < res.trades.length →
      (res.trades.getD k tr0).entry_time ≤ (res.trades.getD k tr0).exit_time ∧
      (res.trades.getD k tr0).pnl = pnlFormula (res.trades.getD k tr0).type_
        (res.trades.getD k tr0).position_size (res.trades.getD k tr0).entry_price
        (res.trades.getD k tr0).exit_price ∧
      (res.trades.getD k tr0).capital_after =
        cfg.initial_capital + ((res.trades.take (k + 1)).map Trade.pnl).sum) ∧
    (∀ (pos : Position) (price : ℚ),
      calculatePnl pos price = pnlFormula pos.type_ pos.position_size pos.entry_price price) ∧
    (∀ (row : Bar) (st : RunState) (pos : Position), st.open_position = some pos →
      (recordEquity row st).equity_curve = st.equity_curve ++
        [⟨row.time, st.current_capital +
          pnlFormula pos.type_ pos.position_size pos.entry_price row.close⟩]) := by
  have hlen : ¬ df.length < 22 := by
    intro h
    rw [runBacktest, if_pos h] at hres
    exact Option.noConfusion hres
  have hinit : C4Inv cfg df 21 (initState cfg) := by
    refine ⟨by simp [initState], ?_, ?_⟩
    · intro k h
      simp [initState] at h
    · intro pos h
      simp [initState] at h
  have hInvF := foldl_range'_inv (stepBar cfg fsetup df) (C4Inv cfg df) (df.length - 21) 21
    (initState cfg) hinit
    (fun i s hi hlt hp => C4_step cfg fsetup df hmono i s (by omega) hp)
  have h21 : 21 + (df.length - 21) = df.length := by omega
  rw [h21] at hInvF
  obtain ⟨hcapF, htrF, hopenF⟩ := hInvF
  have hfinal : ∀ k : ℕ,
      k < (finalClose df ((List.range' 21 (df.length - 21)).foldl (stepBar cfg fsetup df)
        (initState cfg))).trades.length →
      (((finalClose df ((List.range' 21 (df.length - 21)).foldl (stepBar cfg fsetup df)
          (initState cfg))).trades.getD k tr0).entry_time ≤
        ((finalClose df ((List.range' 21 (df.length - 21)).foldl (stepBar cfg fsetup df)
          (initState cfg))).trades.getD k tr0).exit_time) ∧
      ((finalClose df ((List.range' 21 (df.length - 21)).foldl (stepBar cfg fsetup df)
          (initState cfg))).trades.getD k tr0).pnl =
        pnlFormula ((finalClose df ((List.range' 21 (df.length - 21)).foldl
            (stepBar cfg fsetup df) (initState cfg))).trades.getD k tr0).type_
          ((finalClose df ((List.range' 21 (df.length - 21)).foldl (stepBar cfg fsetup df)
            (initState cfg))).trades.getD k tr0).position_size
          ((finalClose df ((List.range' 21 (df.length - 21)).foldl (stepBar cfg fsetup df)
            (initState cfg))).trades.getD k tr0).entry_price
          ((finalClose df ((List.range' 21 (df.length - 21)).foldl (stepBar cfg fsetup df)
            (initState cfg))).trades.getD k tr0).exit_price ∧
      ((finalClose df ((List.range' 21 (df.length - 21)).foldl (stepBar cfg fsetup df)
          (initState cfg))).trades.getD k tr0).capital_after =
        cfg.initial_capital + (((finalClose df ((List.range' 21 (df.length - 21)).foldl
          (stepBar cfg fsetup df) (initState cfg))).trades.take (k + 1)).map Trade.pnl).sum := by
    rcases finalClose_cases df ((List.range' 21 (df.length - 21)).foldl (stepBar cfg fsetup df)
      (initState cfg)) with ⟨hfc, _⟩ | ⟨pos, hop, hfc⟩
    · rw [hfc]
      exact htrF
    · rw [hfc]
      obtain ⟨j, hj, hjn, heq⟩ := hopenF pos hop
      exact tradeList_append cfg _ _ htrF
        (by
          show pos.entry_time ≤ (df.getD (df.length - 1) bar0).time
          rw [heq]
          exact hmono (df.length - 1) (by omega) j (by omega))
        (calculatePnl_formula pos _)
        (by
          show _ + calculatePnl pos _ = _
          rw [hcapF])
  rw [runBacktest, if_neg hlen] at hres
  have hr := Option.some.inj hres
  refine ⟨?_, fun pos price => calculatePnl_formula pos price, ?_⟩
  · rw [← hr]
    exact hfinal
  · intro row st pos h
    simp only [recordEquity, h, calculatePnl_formula]

theorem flat22_time (i : ℕ) : ((flatBars 22).getD i bar0).time = 0 := by
  by_cases h : i < 22
  · rw [List.getD_eq_getElem (flatBars 22) bar0 (by simpa [flatBars] using h)]
    simp only [flatBars, List.getElem_replicate]
  · rw [List.getD_eq_default (flatBars 22) bar0 (by simp [flatBars]; omega)]
    rfl

theorem C4_witness :
    calculatePnl posY 105 = pnlFormula PosType.LONG 1000 100 105 := by
  have h := C4_trade_accounting cfgW noSetup (flatBars 22) resW
    (fun j hj i hij => by rw [flat22_time i, flat22_time j]) runW_eval
  exact h.2.1 posY 105
